import Mathlib

/-!
# Valkyrie: a TCP rendezvous relay

A shallow embedding of `valkyrie.go` and the properties proved about it.

Pointers to `conn` values are natural numbers indexing a heap; a nil pointer
is `none`.  The registry `server.c` (a Go `map[uint32]*conn`) is a function
from keys to optional pointers, where `none` is what the Go expression
`s.c[id]` yields for an absent key.  Bytes and `uint32` values are natural
numbers, with the wrap-around of the machine operations written out.
-/

namespace Valkyrie

/-! ## Data model -/

/-- The `conn` struct: `id`, the socket `c` (here: whether it has been closed),
the `binding` pointer and the `barrier` channel (here: whether it has been
closed, that is, signaled). -/
structure conn where
  id : Nat
  c : Bool
  binding : Option Nat
  barrier : Bool
deriving DecidableEq

/-- The `server` struct: the registry `c` together with the heap of `conn`
values the registry and the bindings point into. -/
structure server where
  c : Nat → Option Nat
  conns : Nat → conn

/-- Assignment to one key of a total map. -/
def setAt {α : Type} (f : Nat → α) (k : Nat) (v : α) : Nat → α :=
  fun j => if j = k then v else f j

/-- The value `&conn{s: s, c: c, barrier: make(chan bool)}` built by
`newConnection`: zero id, open socket, nil binding, open barrier. -/
def freshConn : conn := { id := 0, c := false, binding := none, barrier := false }

/-- The state made by `NewServer`: an empty registry. -/
def NewServer : server := { c := fun _ => none, conns := fun _ => freshConn }

/-! ## Wire format -/

/-- The package-level `header`: magic, then the big-endian payload length 4. -/
def header : List Nat := [0x82, 0x96, 0x44, 0xa1, 0, 0, 0, 4]

/-- The conversion `byte(x)`. -/
def toByte (x : Nat) : Nat := x % 256

/-- The conversion to `uint32` of the result of a 32-bit operation. -/
def toU32 (x : Nat) : Nat := x % 4294967296

/-- The frame `d` that `conn.handle` builds and writes first. -/
def announce (id : Nat) : List Nat :=
  [0x82, 0x96, 0x44, 0xa1,
   0, 0, 0, 4,
   toByte ((id >>> 24) &&& 0xff),
   toByte ((id >>> 16) &&& 0xff),
   toByte ((id >>> 8) &&& 0xff),
   toByte (id &&& 0xff)]

/-- The expression `uint32(d[8])<<24 | uint32(d[9])<<16 | uint32(d[10])<<8 | uint32(d[11])`. -/
def zidOf (d : List Nat) : Nat :=
  toU32 (d.getD 8 0 <<< 24) ||| toU32 (d.getD 9 0 <<< 16) |||
    toU32 (d.getD 10 0 <<< 8) ||| d.getD 11 0

/-- The number whose big-endian base-256 digits are `b0 b1 b2 b3`. -/
def bigEndian (b0 b1 b2 b3 : Nat) : Nat :=
  b0 * 16777216 + b1 * 65536 + b2 * 256 + b3

/-! ## Registry operations -/

/-- The loop of `server.assignId`, with `n` iterations left and `i` draws
already made; `rnd i` is the value returned by the draw number `i` of
`rand.Uint32()`.  The result is the new state and the returned error. -/
def assignIdLoop (s : server) (c : Nat) (rnd : Nat → Nat) : Nat → Nat → server × Option String
  | _, 0 => (s, some "unable to assign id")
  | i, n + 1 =>
    let id := rnd i
    if s.c id = none then
      ({ c := setAt s.c id (some c),
         conns := setAt s.conns c { s.conns c with id := id } }, none)
    else assignIdLoop s c rnd (i + 1) n

/-- The method `server.assignId`: at most 10 draws. -/
def assignId (s : server) (c : Nat) (rnd : Nat → Nat) : server × Option String :=
  assignIdLoop s c rnd 0 10

/-- The call `x.c.Close()` on the socket of the handle `x`. -/
def closeSocket (m : Nat → conn) (x : Nat) : Nat → conn :=
  setAt m x { m x with c := true }

/-- The method `conn.Close`: close the own socket, close the socket of the
binding when there is one, delete the own id from the registry. -/
def Close (s : server) (c : Nat) : server :=
  let m1 := closeSocket s.conns c
  let m2 := match (m1 c).binding with
    | none => m1
    | some b => closeSocket m1 b
  { c := setAt s.c (m2 c).id none, conns := m2 }

/-- The part of `conn.handle` from the header comparison to the assignment
`c.binding = peer`, run on the 12 bytes `d` that were read.  The result is the
new state and the local variable `peer` (`none` when the handle returned after
`c.Close()`). -/
def bind (s : server) (c : Nat) (d : List Nat) : server × Option Nat :=
  if d.take 8 ≠ header then (Close s c, none)
  else
    let zid := zidOf d
    if zid = (s.conns c).id then (Close s c, none)
    else
      match s.c zid with
      | none => (Close s c, none)
      | some peer =>
        ({ s with conns := setAt s.conns c { s.conns c with binding := some peer } }, some peer)

/-! ## The rendezvous part of `conn.handle` -/

/-- The assignment `c.binding = nil`. -/
def clearBinding (s : server) (c : Nat) : server :=
  { s with conns := setAt s.conns c { s.conns c with binding := none } }

/-- The statement `close(c.barrier)`. -/
def closeBarrier (s : server) (c : Nat) : server :=
  { s with conns := setAt s.conns c { s.conns c with barrier := true } }

/-- The part of `conn.handle` from the header comparison to `close(c.barrier)`:
`bind`, then the barrier is closed when a peer was recorded. -/
def latch (s : server) (c : Nat) (d : List Nat) : server × Option Nat :=
  match bind s c d with
  | (s1, none) => (s1, none)
  | (s1, some peer) => (closeBarrier s1 c, some peer)

/-- How a branch of the `select` of `conn.handle` ends. -/
inductive Branch where
  /-- The branch falls out of the `select`, on to the proxy loop. -/
  | through (s : server)
  /-- The branch ran `c.binding = nil; c.Close(); return`. -/
  | returned (s : server)
  /-- The branch evaluated `peer.binding.id` with `peer.binding` nil. -/
  | nilDeref

/-- The branch `case _ = <-peer.barrier:` of the `select`, taken once
`peer.barrier` is closed. -/
def barrierCase (s : server) (c peer : Nat) : Branch :=
  if (s.conns peer).binding ≠ some c then
    match (s.conns peer).binding with
    | none => Branch.nilDeref
    | some _ => Branch.returned (Close (clearBinding s c) c)
  else Branch.through s

/-- The branch `case _ = <-time.After(30 * time.Second):` of the `select`. -/
def timeoutCase (s : server) (c : Nat) : server :=
  Close (clearBinding s c) c

/-! ## The handles of a server as a transition system -/

/-- Where the goroutine running `conn.handle` for a handle stands. -/
inductive Phase where
  /-- No `conn` has been allocated at this pointer. -/
  | free
  /-- Made by `newConnection`; the bind request has not been read yet. -/
  | start
  /-- Blocked in the `select`, with this value of the local `peer`. -/
  | waiting (peer : Nat)
  /-- Past the `select`, in the proxy loop, with this value of `peer`. -/
  | paired (peer : Nat)
  /-- Returned from a handshake branch (or dropped by `newConnection`). -/
  | rejected
  /-- Returned after the proxy loop and the final `c.Close()`. -/
  | closed
deriving DecidableEq

/-- The server together with the control state of every handle and the next
pointer the allocator hands out. -/
structure World where
  s : server
  pc : Nat → Phase
  next : Nat

/-- The world right after `NewServer`. -/
def World.init : World := { s := NewServer, pc := fun _ => Phase.free, next := 0 }

/-- The method `server.newConnection` on a newly accepted socket: allocate the
`conn`, run `assignId`; on an error close the socket and drop the handle. -/
def newConnection (w : World) (rnd : Nat → Nat) : World :=
  let cc := w.next
  let s0 : server := { w.s with conns := setAt w.s.conns cc freshConn }
  match assignId s0 cc rnd with
  | (s1, none) => { s := s1, pc := setAt w.pc cc Phase.start, next := cc + 1 }
  | (s1, some _) =>
    { s := { s1 with conns := closeSocket s1.conns cc },
      pc := setAt w.pc cc Phase.rejected, next := cc + 1 }

/-- The atomic steps of the system. -/
inductive Event where
  /-- The acceptor runs `newConnection`; `rnd` are the draws of `rand.Uint32`. -/
  | accept (rnd : Nat → Nat)
  /-- The announce write or the read of the bind request fails: `c.Close()`. -/
  | ioFail (c : Nat)
  /-- The handle has read the 12 bytes `d` and runs up to `close(c.barrier)`. -/
  | bindReq (c : Nat) (d : List Nat)
  /-- The handle takes the `peer.barrier` branch of the `select`. -/
  | check (c : Nat)
  /-- The handle takes the `time.After` branch of the `select`. -/
  | timeout (c : Nat)
  /-- The proxy loop of the handle ends: the final `c.Close()`. -/
  | finish (c : Nat)

/-- What a step gives. -/
inductive Outcome where
  /-- The step ran and left this world. -/
  | ok (w : World)
  /-- The step cannot run in this world. -/
  | disabled
  /-- The step dereferenced a nil pointer: the process dies. -/
  | nilDeref

/-- One step of the system. -/
def step (w : World) : Event → Outcome
  | Event.accept rnd => Outcome.ok (newConnection w rnd)
  | Event.ioFail c =>
    match w.pc c with
    | Phase.start => Outcome.ok { w with s := Close w.s c, pc := setAt w.pc c Phase.rejected }
    | _ => Outcome.disabled
  | Event.bindReq c d =>
    match w.pc c with
    | Phase.start =>
      if d.length = 12 ∧ ∀ b ∈ d, b < 256 then
        match latch w.s c d with
        | (s1, none) => Outcome.ok { w with s := s1, pc := setAt w.pc c Phase.rejected }
        | (s1, some peer) => Outcome.ok { w with s := s1, pc := setAt w.pc c (Phase.waiting peer) }
      else Outcome.disabled
    | _ => Outcome.disabled
  | Event.check c =>
    match w.pc c with
    | Phase.waiting peer =>
      if (w.s.conns peer).barrier = true then
        match barrierCase w.s c peer with
        | Branch.through s1 => Outcome.ok { w with s := s1, pc := setAt w.pc c (Phase.paired peer) }
        | Branch.returned s1 => Outcome.ok { w with s := s1, pc := setAt w.pc c Phase.rejected }
        | Branch.nilDeref => Outcome.nilDeref
      else Outcome.disabled
    | _ => Outcome.disabled
  | Event.timeout c =>
    match w.pc c with
    | Phase.waiting _ =>
      Outcome.ok { w with s := timeoutCase w.s c, pc := setAt w.pc c Phase.rejected }
    | _ => Outcome.disabled
  | Event.finish c =>
    match w.pc c with
    | Phase.paired _ => Outcome.ok { w with s := Close w.s c, pc := setAt w.pc c Phase.closed }
    | _ => Outcome.disabled

/-- Run a list of steps, stopping at the first that does not run. -/
def run : World → List Event → Outcome
  | w, [] => Outcome.ok w
  | w, e :: es =>
    match step w e with
    | Outcome.ok w1 => run w1 es
    | o => o

/-- The worlds reached from `w0` by steps that ran. -/
inductive ReachableFrom (w0 : World) : World → Prop where
  | refl : ReachableFrom w0 w0
  | step {w w1 : World} (e : Event) : ReachableFrom w0 w → step w e = Outcome.ok w1 →
      ReachableFrom w0 w1

/-- The worlds reached from the initial one. -/
def Reachable (w : World) : Prop := ReachableFrom World.init w

/-- A handle that `newConnection` registered and that has not returned. -/
def World.live (w : World) (h : Nat) : Prop :=
  w.pc h = Phase.start ∨ (∃ p, w.pc h = Phase.waiting p) ∨ (∃ p, w.pc h = Phase.paired p)

/-! ## The userspace copy loop -/

/-- What a call `c.c.Read(buf)` returns: the bytes filled into `buf[0:n]`
and the error. -/
structure ReadResult where
  data : List Nat
  err : Option String
deriving DecidableEq

/-- What a call `peer.c.Write(p)` returns: the count of bytes written and the
error. -/
structure WriteResult where
  n : Nat
  err : Option String
deriving DecidableEq

/-- What the copy loop did: the bytes that reached the socket of the peer and
the results of the `Read` calls it made. -/
structure Copied where
  written : List Nat
  reads : List ReadResult
deriving DecidableEq

/-- The loop `for { n, err = c.c.Read(buf); if err != nil { break };
n, err = peer.c.Write(buf[0:n]); if err != nil { break } }` run on the results
the successive `Read` calls return; `wr k p` is what the `Write` call number
`k` returns on the argument `p`. -/
def copyLoop (wr : Nat → List Nat → WriteResult) : Nat → List ReadResult → Copied
  | _, [] => { written := [], reads := [] }
  | k, r :: rs =>
    match r.err with
    | some _ => { written := [], reads := [r] }
    | none =>
      let w := wr k r.data
      match w.err with
      | some _ => { written := r.data.take w.n, reads := [r] }
      | none =>
        let rest := copyLoop wr (k + 1) rs
        { written := r.data.take w.n ++ rest.written, reads := r :: rest.reads }

/-- A `Write` that succeeds in full. -/
def fullWrite : Nat → List Nat → WriteResult := fun _ p => { n := p.length, err := none }

/-- The bytes that a list of `Read` results reported, in order. -/
def reported (rs : List ReadResult) : List Nat := (rs.map (fun r => r.data)).flatten

/-! ## What a step does, field by field -/

/-- The effect of a step of handle `c` that ends in `c.Close()`, after
`c.binding = nil` when `clear` holds, and leaves the handle in phase `ph`. -/
def CloseStep (w w1 : World) (c : Nat) (clear : Bool) (ph : Phase) : Prop :=
  w1.next = w.next ∧ w1.pc = setAt w.pc c ph ∧
  (∀ x, (w1.s.conns x).id = (w.s.conns x).id) ∧
  (∀ x, (w1.s.conns x).barrier = (w.s.conns x).barrier) ∧
  (∀ x, x ≠ c → (w1.s.conns x).binding = (w.s.conns x).binding) ∧
  ((w1.s.conns c).binding = if clear = true then none else (w.s.conns c).binding) ∧
  (∀ k, w1.s.c k = if k = (w.s.conns c).id then none else w.s.c k) ∧
  (∀ x, (w1.s.conns x).c =
    if x = c ∨ (clear = false ∧ (w.s.conns c).binding = some x) then true else (w.s.conns x).c)

/-- The effect of a step of handle `c` that records `peer` and closes the
barrier. -/
def LatchStep (w w1 : World) (c peer : Nat) : Prop :=
  w.pc c = Phase.start ∧
  w1.next = w.next ∧ w1.pc = setAt w.pc c (Phase.waiting peer) ∧
  w1.s.c = w.s.c ∧
  (∀ x, x ≠ c → w1.s.conns x = w.s.conns x) ∧
  w1.s.conns c = { w.s.conns c with binding := some peer, barrier := true } ∧
  (∃ z, w.s.c z = some peer ∧ z ≠ (w.s.conns c).id)

/-- The effect of a step of handle `c` that passes the symmetry check. -/
def PairStep (w w1 : World) (c peer : Nat) : Prop :=
  w.pc c = Phase.waiting peer ∧
  (w.s.conns peer).barrier = true ∧ (w.s.conns peer).binding = some c ∧
  w1.next = w.next ∧ w1.pc = setAt w.pc c (Phase.paired peer) ∧ w1.s = w.s

/-- The effect of `newConnection`. -/
def AcceptStep (w w1 : World) : Prop :=
  w1.next = w.next + 1 ∧
  (∀ x, x ≠ w.next → w1.s.conns x = w.s.conns x ∧ w1.pc x = w.pc x) ∧
  (w1.s.conns w.next).binding = none ∧ (w1.s.conns w.next).barrier = false ∧
  ((w1.pc w.next = Phase.start ∧
      ∃ id, w.s.c id = none ∧ (w1.s.conns w.next).id = id ∧
        ∀ k, w1.s.c k = if k = id then some w.next else w.s.c k) ∨
    (w1.pc w.next = Phase.rejected ∧ w1.s.c = w.s.c))

/-- The facts that hold in every reachable world. -/
structure Inv (w : World) : Prop where
  unused : ∀ h, w.next ≤ h → w.pc h = Phase.free
  early : ∀ h, w.pc h = Phase.free ∨ w.pc h = Phase.start →
    (w.s.conns h).binding = none ∧ (w.s.conns h).barrier = false
  latched : ∀ h p, w.pc h = Phase.waiting p ∨ w.pc h = Phase.paired p →
    (w.s.conns h).binding = some p ∧ (w.s.conns h).barrier = true
  finished : ∀ h, w.pc h = Phase.closed → (w.s.conns h).binding ≠ none
  cleared : ∀ h, w.pc h = Phase.rejected → (w.s.conns h).binding = none
  entry : ∀ k h, w.s.c k = some h → (w.s.conns h).id = k ∧ w.live h
  registered : ∀ h, w.live h → w.s.c (w.s.conns h).id = some h

/-! ## Concrete states used to evaluate the definitions -/

/-- A server with handle 0 registered under id 7 and handle 1 under id 9. -/
def twoHandles : server :=
  { c := fun k => if k = 7 then some 0 else if k = 9 then some 1 else none,
    conns := fun x => if x = 0 then { freshConn with id := 7 } else { freshConn with id := 9 } }

/-- A server in which every key is in use. -/
def fullRegistry : server := { c := fun _ => some 0, conns := fun _ => freshConn }

/-- Handle `a` has named `b` (and waits, or has been rejected), while `b` is
past the point where it records its binding and that binding is not `a`. -/
def Mismatched (w : World) (a b : Nat) : Prop :=
  (w.pc a = Phase.waiting b ∨ w.pc a = Phase.rejected) ∧
  w.pc b ≠ Phase.free ∧ w.pc b ≠ Phase.start ∧
  (w.s.conns b).binding ≠ some a

/-- The world an outcome carries; the initial world when the run stopped. -/
def Outcome.world : Outcome → World
  | Outcome.ok w => w
  | _ => World.init

/-- Whether the run ended in a nil pointer dereference. -/
def Outcome.isNilDeref : Outcome → Bool
  | Outcome.nilDeref => true
  | _ => false

/-- Three connections are accepted: handles 0, 1, 2 get the ids 1, 2, 3. -/
def threeAccepts : List Event :=
  [Event.accept (fun _ => 1), Event.accept (fun _ => 2), Event.accept (fun _ => 3)]

/-- Handle 2 names handle 0, handle 0 names handle 1, handle 1 names handle 2;
handle 1 then finds that handle 2 is bound to handle 0 and is rejected.  A bind
request has the layout of the announce frame. -/
def cycleTrace : List Event :=
  threeAccepts ++
    [Event.bindReq 2 (announce 1), Event.bindReq 0 (announce 2), Event.bindReq 1 (announce 3),
     Event.check 1]

/-- Handle 0 names handle 1, while handles 1 and 2 name each other and both
pass the symmetry check. -/
def crossTrace : List Event :=
  threeAccepts ++
    [Event.bindReq 0 (announce 2), Event.bindReq 1 (announce 3), Event.bindReq 2 (announce 2),
     Event.check 1, Event.check 2]

/-- Handles 0 and 1 name each other; handle 1 is about to check. -/
def pairTrace : List Event :=
  [Event.accept (fun _ => 1), Event.accept (fun _ => 2),
   Event.bindReq 0 (announce 2), Event.bindReq 1 (announce 1), Event.check 0]

/-! ## Total maps -/

theorem setAt_same {α : Type} (f : Nat → α) (k : Nat) (v : α) : setAt f k v k = v := by
  simp [setAt]

theorem setAt_ne {α : Type} (f : Nat → α) (k j : Nat) (v : α) (h : j ≠ k) :
    setAt f k v j = f j := by
  simp [setAt, h]

/-! ## `conn.Close` -/

theorem closeSocket_binding (m : Nat → conn) (x y : Nat) :
    (closeSocket m x y).binding = (m y).binding := by
  unfold closeSocket setAt
  by_cases h : y = x
  · subst h; simp
  · simp [h]

theorem closeSocket_barrier (m : Nat → conn) (x y : Nat) :
    (closeSocket m x y).barrier = (m y).barrier := by
  unfold closeSocket setAt
  by_cases h : y = x
  · subst h; simp
  · simp [h]

theorem closeSocket_id (m : Nat → conn) (x y : Nat) :
    (closeSocket m x y).id = (m y).id := by
  unfold closeSocket setAt
  by_cases h : y = x
  · subst h; simp
  · simp [h]

theorem closeSocket_c (m : Nat → conn) (x y : Nat) :
    (closeSocket m x y).c = (if y = x then true else (m y).c) := by
  unfold closeSocket setAt
  by_cases h : y = x
  · subst h; simp
  · simp [h]

theorem Close_conns (s : server) (c : Nat) :
    (Close s c).conns =
      (match (s.conns c).binding with
        | none => closeSocket s.conns c
        | some b => closeSocket (closeSocket s.conns c) b) := by
  unfold Close
  simp only [closeSocket_binding]

theorem Close_binding (s : server) (c x : Nat) :
    ((Close s c).conns x).binding = (s.conns x).binding := by
  rw [Close_conns]
  cases (s.conns c).binding <;> simp only [closeSocket_binding]

theorem Close_barrier (s : server) (c x : Nat) :
    ((Close s c).conns x).barrier = (s.conns x).barrier := by
  rw [Close_conns]
  cases (s.conns c).binding <;> simp only [closeSocket_barrier]

theorem Close_id (s : server) (c x : Nat) :
    ((Close s c).conns x).id = (s.conns x).id := by
  rw [Close_conns]
  cases (s.conns c).binding <;> simp only [closeSocket_id]

theorem Close_socket (s : server) (c x : Nat) :
    ((Close s c).conns x).c =
      (if x = c ∨ (s.conns c).binding = some x then true else (s.conns x).c) := by
  rw [Close_conns]
  cases hb : (s.conns c).binding with
  | none => simp [closeSocket_c]
  | some b =>
    simp only [closeSocket_c, Option.some.injEq]
    by_cases h1 : x = b <;> by_cases h2 : x = c <;> simp [h1, h2, eq_comm]

theorem Close_socket_self (s : server) (c : Nat) : ((Close s c).conns c).c = true := by
  rw [Close_socket]; simp

theorem Close_reg (s : server) (c k : Nat) :
    (Close s c).c k = (if k = (s.conns c).id then none else s.c k) := by
  have h := Close_id s c c
  unfold Close at h ⊢
  simp only at h ⊢
  rw [h]
  rfl

/-! ## Wire format: proofs -/

theorem byte_of_u32 (id : Nat) (k : Nat) :
    toByte ((id >>> k) &&& 0xff) = (id / 2 ^ k) % 256 := by
  have h : (255 : Nat) = 2 ^ 8 - 1 := by norm_num
  unfold toByte
  rw [Nat.shiftRight_eq_div_pow, h, Nat.and_pow_two_sub_one_eq_mod]
  norm_num

theorem shl_or (a x k : Nat) (h : x < 2 ^ k) : a * 2 ^ k ||| x = a * 2 ^ k + x := by
  rw [Nat.mul_comm a, Nat.mul_add_lt_is_or h a]

theorem bigEndian_digits (id : Nat) :
    bigEndian (id / 16777216) (id / 65536 % 256) (id / 256 % 256) (id % 256) = id := by
  unfold bigEndian
  omega

theorem zidOf_eq_bigEndian (d : List Nat) (h8 : d.getD 8 0 < 256) (h9 : d.getD 9 0 < 256)
    (h10 : d.getD 10 0 < 256) (h11 : d.getD 11 0 < 256) :
    zidOf d = bigEndian (d.getD 8 0) (d.getD 9 0) (d.getD 10 0) (d.getD 11 0) := by
  unfold zidOf bigEndian toU32
  generalize d.getD 8 0 = a at *
  generalize d.getD 9 0 = b at *
  generalize d.getD 10 0 = c at *
  generalize d.getD 11 0 = e at *
  simp only [Nat.shiftLeft_eq]
  have e1 : a * 2 ^ 24 % 4294967296 = a * 2 ^ 24 := Nat.mod_eq_of_lt (by omega)
  have e2 : b * 2 ^ 16 % 4294967296 = b * 2 ^ 16 := Nat.mod_eq_of_lt (by omega)
  have e3 : c * 2 ^ 8 % 4294967296 = c * 2 ^ 8 := Nat.mod_eq_of_lt (by omega)
  rw [e1, e2, e3]
  have s1 : a * 2 ^ 24 ||| b * 2 ^ 16 = (a * 2 ^ 8 + b) * 2 ^ 16 := by
    have h := shl_or a (b * 2 ^ 16) 24 (by omega)
    rw [h]; ring
  have s2 : (a * 2 ^ 8 + b) * 2 ^ 16 ||| c * 2 ^ 8 = ((a * 2 ^ 8 + b) * 2 ^ 8 + c) * 2 ^ 8 := by
    have h := shl_or (a * 2 ^ 8 + b) (c * 2 ^ 8) 16 (by omega)
    rw [h]; ring
  rw [s1, s2, shl_or _ e 8 (by omega)]
  ring


/-- C2: for every 32-bit id the announce frame is the magic, the length
0,0,0,4 and the four base-256 digits of the id, most significant first: it has
12 bytes, its first 8 bytes are `header`, every entry is a byte, the payload
read big-endian is the id, and the decoding used for bind requests gives the
id back. -/
theorem announce_frame (id : Nat) (h : id < 4294967296) :
    announce id = [0x82, 0x96, 0x44, 0xa1, 0, 0, 0, 4,
        id / 16777216, id / 65536 % 256, id / 256 % 256, id % 256] ∧
    (announce id).length = 12 ∧
    (announce id).take 8 = header ∧
    (∀ b ∈ announce id, b < 256) ∧
    bigEndian ((announce id).getD 8 0) ((announce id).getD 9 0) ((announce id).getD 10 0)
        ((announce id).getD 11 0) = id ∧
    zidOf (announce id) = id := by
  have e : announce id = [0x82, 0x96, 0x44, 0xa1, 0, 0, 0, 4,
      id / 16777216, id / 65536 % 256, id / 256 % 256, id % 256] := by
    have h24 := byte_of_u32 id 24
    have h16 := byte_of_u32 id 16
    have h8 := byte_of_u32 id 8
    have h0 := byte_of_u32 id 0
    have top : id / 16777216 % 256 = id / 16777216 := by omega
    norm_num at h24 h16 h8 h0
    unfold announce
    rw [h24, h16, h8, h0, top]
  have hb : ∀ b ∈ announce id, b < 256 := by
    rw [e]
    intro b hb
    simp only [List.mem_cons, List.mem_singleton, List.not_mem_nil, or_false] at hb
    omega
  refine ⟨e, by simp [announce], by simp [announce, header], hb, ?_, ?_⟩
  · rw [e]
    simp only [List.getD_cons_succ, List.getD_cons_zero]
    exact bigEndian_digits id
  · rw [zidOf_eq_bigEndian]
    · rw [e]
      simp only [List.getD_cons_succ, List.getD_cons_zero]
      exact bigEndian_digits id
    all_goals
      rw [e]
      simp only [List.getD_cons_succ, List.getD_cons_zero]
      omega

theorem announce_frame_witness :
    announce 305419896 = [0x82, 0x96, 0x44, 0xa1, 0, 0, 0, 4, 0x12, 0x34, 0x56, 0x78] ∧
    zidOf (announce 305419896) = 305419896 := by
  have h := announce_frame 305419896 (by decide)
  exact ⟨h.1, h.2.2.2.2.2⟩


/-! ## The bind request -/

theorem getD_byte (d : List Nat) (h : ∀ b ∈ d, b < 256) (i : Nat) : d.getD i 0 < 256 := by
  induction d generalizing i with
  | nil => simp
  | cons x xs ih =>
    cases i with
    | zero => simpa using h x (by simp)
    | succ n =>
      simp only [List.getD_cons_succ]
      exact ih (fun b hb => h b (by simp [hb])) n

theorem conn_eq (a b : conn) (h1 : a.id = b.id) (h2 : a.c = b.c) (h3 : a.binding = b.binding)
    (h4 : a.barrier = b.barrier) : a = b := by
  cases a; cases b; simp_all

/-- C1: on a 12-byte request `d` the handshake records a peer exactly when the
first 8 bytes are `header`, the big-endian ZID in bytes 8..11 differs from the
own id and the registry contains that ZID; the recorded peer is then the handle
the registry maps the ZID to (and nothing else changes); in every other case
the handle is rejected: the state is that of `Close`, the socket is closed, the
own id is out of the registry, and `binding` is still nil. -/
theorem bind_records_peer_iff (s : server) (c : Nat) (d : List Nat)
    (hlen : d.length = 12) (hbytes : ∀ b ∈ d, b < 256) (hnil : (s.conns c).binding = none) :
    ((((bind s c d).1.conns c).binding ≠ none) ↔
      (d.take 8 = header ∧
        bigEndian (d.getD 8 0) (d.getD 9 0) (d.getD 10 0) (d.getD 11 0) ≠ (s.conns c).id ∧
        s.c (bigEndian (d.getD 8 0) (d.getD 9 0) (d.getD 10 0) (d.getD 11 0)) ≠ none)) ∧
    ((d.take 8 = header ∧
        bigEndian (d.getD 8 0) (d.getD 9 0) (d.getD 10 0) (d.getD 11 0) ≠ (s.conns c).id ∧
        s.c (bigEndian (d.getD 8 0) (d.getD 9 0) (d.getD 10 0) (d.getD 11 0)) ≠ none) →
      ((bind s c d).1.conns c).binding =
          s.c (bigEndian (d.getD 8 0) (d.getD 9 0) (d.getD 10 0) (d.getD 11 0)) ∧
        (bind s c d).2 = s.c (bigEndian (d.getD 8 0) (d.getD 9 0) (d.getD 10 0) (d.getD 11 0)) ∧
        (bind s c d).1.c = s.c ∧
        ((bind s c d).1.conns c).c = (s.conns c).c ∧
        (∀ x, x ≠ c → (bind s c d).1.conns x = s.conns x)) ∧
    (¬ (d.take 8 = header ∧
        bigEndian (d.getD 8 0) (d.getD 9 0) (d.getD 10 0) (d.getD 11 0) ≠ (s.conns c).id ∧
        s.c (bigEndian (d.getD 8 0) (d.getD 9 0) (d.getD 10 0) (d.getD 11 0)) ≠ none) →
      (bind s c d).1 = Close s c ∧ (bind s c d).2 = none ∧
        ((bind s c d).1.conns c).binding = none ∧
        ((bind s c d).1.conns c).c = true ∧
        (bind s c d).1.c (s.conns c).id = none) := by
  have _ := hlen
  have hz : zidOf d = bigEndian (d.getD 8 0) (d.getD 9 0) (d.getD 10 0) (d.getD 11 0) :=
    zidOf_eq_bigEndian d (getD_byte d hbytes 8) (getD_byte d hbytes 9) (getD_byte d hbytes 10)
      (getD_byte d hbytes 11)
  rw [← hz]
  have hrej : ((Close s c).conns c).binding = none ∧ ((Close s c).conns c).c = true ∧
      (Close s c).c (s.conns c).id = none := by
    refine ⟨by rw [Close_binding, hnil], Close_socket_self s c, ?_⟩
    rw [Close_reg]; simp
  by_cases hh : d.take 8 = header
  · by_cases hid : zidOf d = (s.conns c).id
    · have hb : bind s c d = (Close s c, none) := by
        unfold bind; simp [hh, hid]
      rw [hb]
      refine ⟨?_, ?_, ?_⟩
      · simp [hrej.1, hid]
      · intro h; exact absurd hid h.2.1
      · intro _; exact ⟨rfl, rfl, hrej⟩
    · cases hp : s.c (zidOf d) with
      | none =>
        have hb : bind s c d = (Close s c, none) := by
          unfold bind; simp [hh, hid, hp]
        rw [hb]
        refine ⟨?_, ?_, ?_⟩
        · simp [hrej.1]
        · intro h; exact absurd rfl h.2.2
        · intro _; exact ⟨rfl, rfl, hrej⟩
      | some peer =>
        have hb : bind s c d =
            ({ s with conns := setAt s.conns c { s.conns c with binding := some peer } },
              some peer) := by
          unfold bind; simp [hh, hid, hp]
        rw [hb]
        refine ⟨?_, ?_, ?_⟩
        · simp [setAt_same, hh, hid]
        · intro _
          refine ⟨by simp [setAt_same], rfl, rfl, by simp [setAt_same], ?_⟩
          intro x hx
          simp [setAt_ne _ _ _ _ hx]
        · intro h
          exact absurd ⟨hh, hid, by simp⟩ h
  · have hb : bind s c d = (Close s c, none) := by
      unfold bind; simp [hh]
    rw [hb]
    refine ⟨?_, ?_, ?_⟩
    · simp [hrej.1, hh]
    · intro h; exact absurd h.1 hh
    · intro _; exact ⟨rfl, rfl, hrej⟩

/-- Handle 0 (id 7) names the registered id 9 and gets handle 1 recorded. -/
theorem bind_records_peer_iff_witness :
    ((bind twoHandles 0 [0x82, 0x96, 0x44, 0xa1, 0, 0, 0, 4, 0, 0, 0, 9]).1.conns 0).binding =
      some 1 :=
  ((bind_records_peer_iff twoHandles 0 [0x82, 0x96, 0x44, 0xa1, 0, 0, 0, 4, 0, 0, 0, 9]
    (by decide) (by decide) (by decide)).2.1 (by decide)).1

/-! ## `server.assignId` -/

theorem assignIdLoop_hit (s : server) (c : Nat) (rnd : Nat → Nat) (n i0 i : Nat)
    (hi : i0 ≤ i) (hin : i < i0 + n) (hfree : s.c (rnd i) = none)
    (hused : ∀ j, i0 ≤ j → j < i → s.c (rnd j) ≠ none) :
    assignIdLoop s c rnd i0 n =
      ({ c := setAt s.c (rnd i) (some c),
         conns := setAt s.conns c { s.conns c with id := rnd i } }, none) := by
  induction n generalizing i0 with
  | zero => omega
  | succ n ih =>
    unfold assignIdLoop
    by_cases h0 : i0 = i
    · subst h0
      simp [hfree]
    · have hne : s.c (rnd i0) ≠ none := hused i0 (le_refl _) (by omega)
      simp only [hne, if_false]
      exact ih (i0 + 1) (by omega) (by omega) (fun j h1 h2 => hused j (by omega) h2)

theorem assignIdLoop_miss (s : server) (c : Nat) (rnd : Nat → Nat) (n i0 : Nat)
    (hused : ∀ j, i0 ≤ j → j < i0 + n → s.c (rnd j) ≠ none) :
    assignIdLoop s c rnd i0 n = (s, some "unable to assign id") := by
  induction n generalizing i0 with
  | zero => rfl
  | succ n ih =>
    unfold assignIdLoop
    have hne : s.c (rnd i0) ≠ none := hused i0 (le_refl _) (by omega)
    simp only [hne, if_false]
    exact ih (i0 + 1) (fun j h1 h2 => hused j (by omega) (by omega))

/-- C3: when the candidate number `i` is the first of the first 10 that is not
in use, `assignId` returns no error, the handle gets that candidate as its id,
the registry maps it to the handle, every other registry entry and every other
field of every handle is unchanged; when the first 10 candidates are all in
use, `assignId` returns the error and the state is unchanged. -/
theorem assignId_first_free (s : server) (c : Nat) (rnd : Nat → Nat) :
    (∀ i, i < 10 → s.c (rnd i) = none → (∀ j, j < i → s.c (rnd j) ≠ none) →
      (assignId s c rnd).2 = none ∧
      ((assignId s c rnd).1.conns c).id = rnd i ∧
      (assignId s c rnd).1.c (rnd i) = some c ∧
      (∀ k, k ≠ rnd i → (assignId s c rnd).1.c k = s.c k) ∧
      (∀ x, x ≠ c → (assignId s c rnd).1.conns x = s.conns x) ∧
      (assignId s c rnd).1.conns c = { s.conns c with id := rnd i }) ∧
    ((∀ i, i < 10 → s.c (rnd i) ≠ none) →
      (assignId s c rnd).2 = some "unable to assign id" ∧ (assignId s c rnd).1 = s) := by
  constructor
  · intro i hi hfree hused
    have h := assignIdLoop_hit s c rnd 10 0 i (Nat.zero_le _) (by omega) hfree
      (fun j _ h2 => hused j h2)
    unfold assignId
    rw [h]
    refine ⟨rfl, by simp [setAt_same], by simp [setAt_same], ?_, ?_, by simp [setAt_same]⟩
    · intro k hk; simp [setAt_ne _ _ _ _ hk]
    · intro x hx; simp [setAt_ne _ _ _ _ hx]
  · intro hused
    have h := assignIdLoop_miss s c rnd 10 0 (fun j _ h2 => hused j (by omega))
    unfold assignId
    rw [h]
    exact ⟨rfl, rfl⟩

/-- With candidates 7, 7, 9, 11, ... and 7, 9 in use, the handle gets 11; with every
key in use the error is returned. -/
theorem assignId_first_free_witness :
    ((assignId twoHandles 2
        (fun i => if i < 2 then 7 else if i < 3 then 9 else 11)).1.conns 2).id = 11 ∧
    (assignId fullRegistry 1 (fun i => i)).2 = some "unable to assign id" :=
  ⟨((assignId_first_free twoHandles 2 (fun i => if i < 2 then 7 else if i < 3 then 9 else 11)).1
      3 (by decide) (by decide) (by intro j hj; interval_cases j <;> decide)).2.1,
   ((assignId_first_free fullRegistry 1 (fun i => i)).2 (by intro i _; simp [fullRegistry])).1⟩

/-! ## `conn.Close` twice -/

/-- C8: applying `conn.Close` to a handle twice in a row leaves the same state
(registry, sockets, every field of every handle) as applying it once. -/
theorem Close_idempotent (s : server) (c : Nat) : Close (Close s c) c = Close s c := by
  have hc : (Close (Close s c) c).c = (Close s c).c := by
    funext k
    rw [Close_reg, Close_reg, Close_id]
    by_cases hk : k = (s.conns c).id <;> simp [hk]
  have hm : (Close (Close s c) c).conns = (Close s c).conns := by
    funext x
    apply conn_eq
    · rw [Close_id]
    · rw [Close_socket, Close_binding, Close_socket]
      by_cases h : x = c ∨ (s.conns c).binding = some x <;> simp [h]
    · rw [Close_binding]
    · rw [Close_barrier]
  cases h1 : Close (Close s c) c with
  | mk r1 m1 =>
    cases h2 : Close s c with
    | mk r2 m2 =>
      rw [h1, h2] at hc hm
      simp only at hc hm
      rw [hc, hm]

/-! ## The steps of the transition system -/

theorem assignIdLoop_cases (s : server) (c : Nat) (rnd : Nat → Nat) (n i0 : Nat) :
    assignIdLoop s c rnd i0 n = (s, some "unable to assign id") ∨
    ∃ id, s.c id = none ∧ assignIdLoop s c rnd i0 n =
      ({ c := setAt s.c id (some c),
         conns := setAt s.conns c { s.conns c with id := id } }, none) := by
  induction n generalizing i0 with
  | zero => left; rfl
  | succ n ih =>
    unfold assignIdLoop
    by_cases h : s.c (rnd i0) = none
    · right
      exact ⟨rnd i0, h, by simp [h]⟩
    · simp only [h, if_false]
      exact ih (i0 + 1)

theorem newConnection_effect (w : World) (rnd : Nat → Nat) :
    AcceptStep w (newConnection w rnd) := by
  unfold newConnection assignId
  simp only
  rcases assignIdLoop_cases { w.s with conns := setAt w.s.conns w.next freshConn } w.next rnd 10 0
    with h | ⟨id, hfree, h⟩
  · rw [h]
    refine ⟨rfl, ?_, ?_, ?_, Or.inr ⟨by simp [setAt_same], rfl⟩⟩
    · intro x hx
      simp [closeSocket, setAt, hx]
    · simp [closeSocket, setAt, freshConn]
    · simp [closeSocket, setAt, freshConn]
  · rw [h]
    refine ⟨rfl, ?_, ?_, ?_, Or.inl ⟨by simp [setAt_same], id, hfree, ?_, ?_⟩⟩
    · intro x hx
      simp [setAt, hx]
    · simp [setAt, freshConn]
    · simp [setAt, freshConn]
    · simp [setAt]
    · intro k
      simp [setAt]

theorem clearBinding_Close_effect (w : World) (c : Nat) (ph : Phase) :
    CloseStep w { w with s := Close (clearBinding w.s c) c, pc := setAt w.pc c ph } c true ph := by
  have hb : ((clearBinding w.s c).conns c).binding = none := by simp [clearBinding, setAt]
  have hid : ∀ x, ((clearBinding w.s c).conns x).id = (w.s.conns x).id := by
    intro x; by_cases hx : x = c
    · subst hx; simp [clearBinding, setAt]
    · simp [clearBinding, setAt, hx]
  refine ⟨rfl, rfl, ?_, ?_, ?_, ?_, ?_, ?_⟩
  · intro x; simp only [Close_id]; exact hid x
  · intro x; simp only [Close_barrier]
    by_cases hx : x = c
    · subst hx; simp [clearBinding, setAt]
    · simp [clearBinding, setAt, hx]
  · intro x hx; simp only [Close_binding]; simp [clearBinding, setAt, hx]
  · simp only [Close_binding]; simp [hb]
  · intro k; simp only [Close_reg, hid]; rfl
  · intro x; simp only [Close_socket, hb]
    by_cases hx : x = c
    · subst hx; simp [clearBinding, setAt]
    · simp [clearBinding, setAt, hx]

theorem Close_effect (w : World) (c : Nat) (ph : Phase) :
    CloseStep w { w with s := Close w.s c, pc := setAt w.pc c ph } c false ph := by
  refine ⟨rfl, rfl, ?_, ?_, ?_, ?_, ?_, ?_⟩
  · intro x; simp only [Close_id]
  · intro x; simp only [Close_barrier]
  · intro x _; simp only [Close_binding]
  · simp only [Close_binding]; simp
  · intro k; simp only [Close_reg]
  · intro x; simp only [Close_socket]; simp

theorem latch_cases (s : server) (c : Nat) (d : List Nat) :
    latch s c d = (Close s c, none) ∨
    ∃ peer, s.c (zidOf d) = some peer ∧ zidOf d ≠ (s.conns c).id ∧ d.take 8 = header ∧
      latch s c d =
        (closeBarrier
          { s with conns := setAt s.conns c { s.conns c with binding := some peer } } c,
          some peer) := by
  unfold latch bind
  by_cases hh : d.take 8 = header
  · by_cases hid : zidOf d = (s.conns c).id
    · left; simp [hh, hid]
    · cases hp : s.c (zidOf d) with
      | none => left; simp [hh, hid, hp]
      | some peer => right; exact ⟨peer, rfl, hid, hh, by simp [hh, hid, hp]⟩
  · left; simp [hh]

/-- Every step that runs has one of four effects. -/
theorem step_cases (w w1 : World) (e : Event) (h : step w e = Outcome.ok w1) :
    AcceptStep w w1 ∨
    (∃ c clear ph, w.live c ∧ CloseStep w w1 c clear ph ∧
      ((ph = Phase.rejected ∧ (clear = true ∨ w.pc c = Phase.start)) ∨
        (ph = Phase.closed ∧ clear = false ∧ ∃ p, w.pc c = Phase.paired p)) ∧
      (clear = true → ∃ p, w.pc c = Phase.waiting p)) ∨
    (∃ c peer, LatchStep w w1 c peer) ∨
    (∃ c peer, PairStep w w1 c peer) := by
  cases e with
  | accept rnd =>
    simp only [step, Outcome.ok.injEq] at h
    subst h
    exact Or.inl (newConnection_effect w rnd)
  | ioFail c =>
    simp only [step] at h
    cases hpc : w.pc c <;> rw [hpc] at h <;> simp only [Outcome.ok.injEq, reduceCtorEq] at h
    subst h
    exact Or.inr (Or.inl ⟨c, false, Phase.rejected, Or.inl hpc, Close_effect w c _,
      Or.inl ⟨rfl, Or.inr hpc⟩, by simp⟩)
  | bindReq c d =>
    simp only [step] at h
    cases hpc : w.pc c <;> rw [hpc] at h <;> simp only [Outcome.ok.injEq, reduceCtorEq] at h
    by_cases hd : d.length = 12 ∧ ∀ b ∈ d, b < 256
    · rw [if_pos hd] at h
      rcases latch_cases w.s c d with hl | ⟨peer, hreg, hne, _, hl⟩
      · rw [hl] at h
        simp only [Outcome.ok.injEq] at h
        subst h
        exact Or.inr (Or.inl ⟨c, false, Phase.rejected, Or.inl hpc, Close_effect w c _,
          Or.inl ⟨rfl, Or.inr hpc⟩, by simp⟩)
      · rw [hl] at h
        simp only [Outcome.ok.injEq] at h
        subst h
        refine Or.inr (Or.inr (Or.inl ⟨c, peer, hpc, rfl, rfl, rfl, ?_, ?_, zidOf d, hreg, hne⟩))
        · intro x hx; simp [closeBarrier, setAt, hx]
        · simp [closeBarrier, setAt]
    · rw [if_neg hd] at h
      simp only [reduceCtorEq] at h
  | check c =>
    simp only [step] at h
    cases hpc : w.pc c <;> rw [hpc] at h <;> simp only [Outcome.ok.injEq, reduceCtorEq] at h
    rename_i peer
    by_cases hb : (w.s.conns peer).barrier = true
    · rw [if_pos hb] at h
      unfold barrierCase at h
      by_cases hm : (w.s.conns peer).binding ≠ some c
      · rw [if_pos hm] at h
        cases hbd : (w.s.conns peer).binding with
        | none => rw [hbd] at h; simp only [reduceCtorEq] at h
        | some q =>
          rw [hbd] at h
          simp only [Outcome.ok.injEq] at h
          subst h
          exact Or.inr (Or.inl ⟨c, true, Phase.rejected, Or.inr (Or.inl ⟨peer, hpc⟩),
            clearBinding_Close_effect w c _, Or.inl ⟨rfl, Or.inl rfl⟩, fun _ => ⟨peer, hpc⟩⟩)
      · rw [if_neg hm] at h
        simp only [Outcome.ok.injEq] at h
        subst h
        exact Or.inr (Or.inr (Or.inr ⟨c, peer, hpc, hb, not_not.mp hm, rfl, rfl, rfl⟩))
    · rw [if_neg hb] at h
      simp only [reduceCtorEq] at h
  | timeout c =>
    simp only [step] at h
    cases hpc : w.pc c <;> rw [hpc] at h <;> simp only [Outcome.ok.injEq, reduceCtorEq] at h
    rename_i peer
    subst h
    exact Or.inr (Or.inl ⟨c, true, Phase.rejected, Or.inr (Or.inl ⟨peer, hpc⟩),
      clearBinding_Close_effect w c _, Or.inl ⟨rfl, Or.inl rfl⟩, fun _ => ⟨peer, hpc⟩⟩)
  | finish c =>
    simp only [step] at h
    cases hpc : w.pc c <;> rw [hpc] at h <;> simp only [Outcome.ok.injEq, reduceCtorEq] at h
    rename_i peer
    subst h
    exact Or.inr (Or.inl ⟨c, false, Phase.closed, Or.inr (Or.inr ⟨peer, hpc⟩),
      Close_effect w c _, Or.inr ⟨rfl, rfl, peer, hpc⟩, by simp⟩)

/-! ## The invariant -/

theorem Inv_init : Inv World.init := by
  refine ⟨fun _ _ => rfl, fun _ _ => ⟨rfl, rfl⟩, ?_, ?_, fun _ _ => rfl, ?_, ?_⟩
  · intro h p hp
    rcases hp with hp | hp <;> simp [World.init] at hp
  · intro h hp
    simp [World.init] at hp
  · intro k h hk
    simp [World.init, NewServer] at hk
  · intro h hl
    rcases hl with hp | ⟨p, hp⟩ | ⟨p, hp⟩ <;> simp [World.init] at hp

theorem live_not_free (w : World) (h : Nat) (hl : w.live h) : w.pc h ≠ Phase.free := by
  rcases hl with hp | ⟨p, hp⟩ | ⟨p, hp⟩ <;> rw [hp] <;> simp

theorem Inv_accept (w w1 : World) (hi : Inv w) (hs : AcceptStep w w1) : Inv w1 := by
  obtain ⟨hnext, hframe, hbind, hbar, hcase⟩ := hs
  have hfree : w.pc w.next = Phase.free := hi.unused _ (le_refl _)
  have hpcnew : w1.pc w.next = Phase.start ∨ w1.pc w.next = Phase.rejected := by
    rcases hcase with ⟨h, _⟩ | ⟨h, _⟩
    · exact Or.inl h
    · exact Or.inr h
  have hlive_old : ∀ h, h ≠ w.next → (w1.live h ↔ w.live h) := by
    intro h hh
    unfold World.live
    rw [(hframe h hh).2]
  refine ⟨?_, ?_, ?_, ?_, ?_, ?_, ?_⟩
  · intro h hh
    have hne : h ≠ w.next := by omega
    rw [(hframe h hne).2]
    exact hi.unused h (by omega)
  · intro h hp
    by_cases hh : h = w.next
    · subst hh; exact ⟨hbind, hbar⟩
    · rw [(hframe h hh).1]
      rw [(hframe h hh).2] at hp
      exact hi.early h hp
  · intro h p hp
    by_cases hh : h = w.next
    · subst hh
      rcases hpcnew with h1 | h1 <;> rw [h1] at hp <;> simp at hp
    · rw [(hframe h hh).1]
      rw [(hframe h hh).2] at hp
      exact hi.latched h p hp
  · intro h hp
    by_cases hh : h = w.next
    · subst hh
      rcases hpcnew with h1 | h1 <;> rw [h1] at hp <;> simp at hp
    · rw [(hframe h hh).1]
      rw [(hframe h hh).2] at hp
      exact hi.finished h hp
  · intro h hp
    by_cases hh : h = w.next
    · subst hh; exact hbind
    · rw [(hframe h hh).1]
      rw [(hframe h hh).2] at hp
      exact hi.cleared h hp
  · intro k h hk
    rcases hcase with ⟨hst, id, hidfree, hid, hreg⟩ | ⟨_, hreg⟩
    · rw [hreg] at hk
      by_cases hkid : k = id
      · rw [if_pos hkid] at hk
        have : h = w.next := by simpa using hk.symm
        subst this
        exact ⟨by rw [hid, hkid], Or.inl hst⟩
      · rw [if_neg hkid] at hk
        have ho := hi.entry k h hk
        have hne : h ≠ w.next := by
          intro he; rw [he] at ho; exact live_not_free w _ ho.2 hfree
        rw [(hframe h hne).1]
        exact ⟨ho.1, (hlive_old h hne).2 ho.2⟩
    · rw [hreg] at hk
      have ho := hi.entry k h hk
      have hne : h ≠ w.next := by
        intro he; rw [he] at ho; exact live_not_free w _ ho.2 hfree
      rw [(hframe h hne).1]
      exact ⟨ho.1, (hlive_old h hne).2 ho.2⟩
  · intro h hl
    by_cases hh : h = w.next
    · subst hh
      rcases hcase with ⟨_, id, _, hid, hreg⟩ | ⟨hrej, _⟩
      · rw [hreg, hid]; simp
      · rcases hl with hp | ⟨p, hp⟩ | ⟨p, hp⟩ <;> rw [hrej] at hp <;> simp at hp
    · have hlo := (hlive_old h hh).1 hl
      have ho := hi.registered h hlo
      rw [(hframe h hh).1]
      rcases hcase with ⟨_, id, hidfree, _, hreg⟩ | ⟨_, hreg⟩
      · rw [hreg]
        have hne : (w.s.conns h).id ≠ id := by
          intro he; rw [he, hidfree] at ho; simp at ho
        rw [if_neg hne]; exact ho
      · rw [hreg]; exact ho

theorem Inv_close (w w1 : World) (c : Nat) (clear : Bool) (ph : Phase) (hi : Inv w)
    (hl : w.live c) (hs : CloseStep w w1 c clear ph)
    (hph : (ph = Phase.rejected ∧ (clear = true ∨ w.pc c = Phase.start)) ∨
      (ph = Phase.closed ∧ clear = false ∧ ∃ p, w.pc c = Phase.paired p)) : Inv w1 := by
  obtain ⟨hnext, hpc, hid, hbar, hbind, hbindc, hreg, _⟩ := hs
  have hpco : ∀ x, x ≠ c → w1.pc x = w.pc x := by
    intro x hx; rw [hpc]; exact setAt_ne _ _ _ _ hx
  have hpcc : w1.pc c = ph := by rw [hpc]; exact setAt_same _ _ _
  have hdead : ¬ w1.live c := by
    intro h
    rcases hph with ⟨h1, _⟩ | ⟨h1, _⟩ <;>
      rcases h with hp | ⟨p, hp⟩ | ⟨p, hp⟩ <;> rw [hpcc, h1] at hp <;> simp at hp
  have hlive_old : ∀ x, x ≠ c → (w1.live x ↔ w.live x) := by
    intro x hx
    unfold World.live
    rw [hpco x hx]
  refine ⟨?_, ?_, ?_, ?_, ?_, ?_, ?_⟩
  · intro h hh
    have hne : h ≠ c := by
      intro he; subst he
      exact live_not_free w _ hl (hi.unused h (by omega))
    rw [hpco h hne]
    exact hi.unused h (by omega)
  · intro h hp
    by_cases hh : h = c
    · subst hh
      rw [hpcc] at hp
      rcases hph with ⟨h1, _⟩ | ⟨h1, _⟩ <;> rw [h1] at hp <;> simp at hp
    · rw [hbind h hh, hbar h]
      rw [hpco h hh] at hp
      exact hi.early h hp
  · intro h p hp
    by_cases hh : h = c
    · subst hh
      rw [hpcc] at hp
      rcases hph with ⟨h1, _⟩ | ⟨h1, _⟩ <;> rw [h1] at hp <;> simp at hp
    · rw [hbind h hh, hbar h]
      rw [hpco h hh] at hp
      exact hi.latched h p hp
  · intro h hp
    by_cases hh : h = c
    · subst hh
      rw [hpcc] at hp
      rcases hph with ⟨h1, _⟩ | ⟨_, hcl, p, hpp⟩
      · rw [h1] at hp; simp at hp
      · rw [hbindc, hcl]
        simp only [Bool.false_eq_true, if_false]
        rw [(hi.latched h p (Or.inr hpp)).1]
        simp
    · rw [hbind h hh]
      rw [hpco h hh] at hp
      exact hi.finished h hp
  · intro h hp
    by_cases hh : h = c
    · subst hh
      rw [hbindc]
      rcases hph with ⟨_, hcl | hst⟩ | ⟨h1, _⟩
      · simp [hcl]
      · rw [(hi.early h (Or.inr hst)).1]; simp
      · rw [hpcc, h1] at hp; simp at hp
    · rw [hbind h hh]
      rw [hpco h hh] at hp
      exact hi.cleared h hp
  · intro k h hk
    rw [hreg] at hk
    by_cases hkc : k = (w.s.conns c).id
    · rw [if_pos hkc] at hk; simp at hk
    · rw [if_neg hkc] at hk
      have ho := hi.entry k h hk
      have hne : h ≠ c := by
        intro he; subst he; exact hkc ho.1.symm
      rw [hid]
      exact ⟨ho.1, (hlive_old h hne).2 ho.2⟩
  · intro h hlh
    have hne : h ≠ c := by
      intro he; subst he; exact hdead hlh
    have hlo := (hlive_old h hne).1 hlh
    have ho := hi.registered h hlo
    rw [hid, hreg]
    have hidne : (w.s.conns h).id ≠ (w.s.conns c).id := by
      intro he
      have hc := hi.registered c hl
      rw [he, hc] at ho
      exact hne (by simpa using ho.symm)
    rw [if_neg hidne]; exact ho

theorem Inv_latch (w w1 : World) (c peer : Nat) (hi : Inv w) (hs : LatchStep w w1 c peer) :
    Inv w1 := by
  obtain ⟨hstart, hnext, hpc, hreg, hframe, hcell, _⟩ := hs
  have hpco : ∀ x, x ≠ c → w1.pc x = w.pc x := by
    intro x hx; rw [hpc]; exact setAt_ne _ _ _ _ hx
  have hpcc : w1.pc c = Phase.waiting peer := by rw [hpc]; exact setAt_same _ _ _
  have hidall : ∀ x, (w1.s.conns x).id = (w.s.conns x).id := by
    intro x
    by_cases hx : x = c
    · subst hx; rw [hcell]
    · rw [hframe x hx]
  have hlive : ∀ x, w1.live x ↔ w.live x := by
    intro x
    by_cases hx : x = c
    · subst hx
      constructor
      · intro _; exact Or.inl hstart
      · intro _; exact Or.inr (Or.inl ⟨peer, hpcc⟩)
    · unfold World.live; rw [hpco x hx]
  refine ⟨?_, ?_, ?_, ?_, ?_, ?_, ?_⟩
  · intro h hh
    have hne : h ≠ c := by
      intro he; subst he
      have := hi.unused h (by omega)
      rw [hstart] at this; simp at this
    rw [hpco h hne]
    exact hi.unused h (by omega)
  · intro h hp
    by_cases hh : h = c
    · subst hh; rw [hpcc] at hp; simp at hp
    · rw [hframe h hh]
      rw [hpco h hh] at hp
      exact hi.early h hp
  · intro h p hp
    by_cases hh : h = c
    · subst hh
      rw [hpcc] at hp
      have hpe : peer = p := by
        rcases hp with hp | hp
        · simpa using hp
        · simp at hp
      subst hpe
      rw [hcell]; exact ⟨rfl, rfl⟩
    · rw [hframe h hh]
      rw [hpco h hh] at hp
      exact hi.latched h p hp
  · intro h hp
    by_cases hh : h = c
    · subst hh; rw [hpcc] at hp; simp at hp
    · rw [hframe h hh]
      rw [hpco h hh] at hp
      exact hi.finished h hp
  · intro h hp
    by_cases hh : h = c
    · subst hh; rw [hpcc] at hp; simp at hp
    · rw [hframe h hh]
      rw [hpco h hh] at hp
      exact hi.cleared h hp
  · intro k h hk
    rw [hreg] at hk
    have ho := hi.entry k h hk
    rw [hidall]
    exact ⟨ho.1, (hlive h).2 ho.2⟩
  · intro h hlh
    rw [hidall, hreg]
    exact hi.registered h ((hlive h).1 hlh)

theorem Inv_pair (w w1 : World) (c peer : Nat) (hi : Inv w) (hs : PairStep w w1 c peer) :
    Inv w1 := by
  obtain ⟨hwait, _, _, hnext, hpc, hsame⟩ := hs
  have hpco : ∀ x, x ≠ c → w1.pc x = w.pc x := by
    intro x hx; rw [hpc]; exact setAt_ne _ _ _ _ hx
  have hpcc : w1.pc c = Phase.paired peer := by rw [hpc]; exact setAt_same _ _ _
  have hlive : ∀ x, w1.live x ↔ w.live x := by
    intro x
    by_cases hx : x = c
    · subst hx
      constructor
      · intro _; exact Or.inr (Or.inl ⟨peer, hwait⟩)
      · intro _; exact Or.inr (Or.inr ⟨peer, hpcc⟩)
    · unfold World.live; rw [hpco x hx]
  refine ⟨?_, ?_, ?_, ?_, ?_, ?_, ?_⟩
  · intro h hh
    have hne : h ≠ c := by
      intro he; subst he
      have := hi.unused h (by omega)
      rw [hwait] at this; simp at this
    rw [hpco h hne]
    exact hi.unused h (by omega)
  · intro h hp
    by_cases hh : h = c
    · subst hh; rw [hpcc] at hp; simp at hp
    · rw [hsame]
      rw [hpco h hh] at hp
      exact hi.early h hp
  · intro h p hp
    rw [hsame]
    by_cases hh : h = c
    · subst hh
      rw [hpcc] at hp
      have hpe : peer = p := by
        rcases hp with hp | hp
        · simp at hp
        · simpa using hp
      subst hpe
      exact hi.latched h peer (Or.inl hwait)
    · rw [hpco h hh] at hp
      exact hi.latched h p hp
  · intro h hp
    rw [hsame]
    by_cases hh : h = c
    · subst hh; rw [hpcc] at hp; simp at hp
    · rw [hpco h hh] at hp
      exact hi.finished h hp
  · intro h hp
    rw [hsame]
    by_cases hh : h = c
    · subst hh; rw [hpcc] at hp; simp at hp
    · rw [hpco h hh] at hp
      exact hi.cleared h hp
  · intro k h hk
    rw [hsame] at hk ⊢
    have ho := hi.entry k h hk
    exact ⟨ho.1, (hlive h).2 ho.2⟩
  · intro h hlh
    rw [hsame]
    exact hi.registered h ((hlive h).1 hlh)

theorem Inv_step (w w1 : World) (e : Event) (hi : Inv w) (h : step w e = Outcome.ok w1) :
    Inv w1 := by
  rcases step_cases w w1 e h with ha | ⟨c, clear, ph, hl, hc, hph, _⟩ | ⟨c, peer, hl⟩ |
    ⟨c, peer, hp⟩
  · exact Inv_accept w w1 hi ha
  · exact Inv_close w w1 c clear ph hi hl hc hph
  · exact Inv_latch w w1 c peer hi hl
  · exact Inv_pair w w1 c peer hi hp

theorem Inv_from (w0 w : World) (h0 : Inv w0) (h : ReachableFrom w0 w) : Inv w := by
  induction h with
  | refl => exact h0
  | step e _ hs ih => exact Inv_step _ _ e ih hs

theorem Inv_reachable (w : World) (h : Reachable w) : Inv w :=
  Inv_from World.init w Inv_init h


/-! ## Runs -/

theorem ReachableFrom_trans (w0 w1 w2 : World) (h1 : ReachableFrom w0 w1)
    (h2 : ReachableFrom w1 w2) : ReachableFrom w0 w2 := by
  induction h2 with
  | refl => exact h1
  | step e _ hs ih => exact ReachableFrom.step e ih hs

theorem run_reachable (es : List Event) (w0 w : World) (h : run w0 es = Outcome.ok w) :
    ReachableFrom w0 w := by
  induction es generalizing w0 with
  | nil =>
    simp only [run, Outcome.ok.injEq] at h
    subst h
    exact ReachableFrom.refl
  | cons e es ih =>
    simp only [run] at h
    cases hs : step w0 e with
    | ok w1 =>
      rw [hs] at h
      exact ReachableFrom_trans w0 w1 w (ReachableFrom.step e ReachableFrom.refl hs) (ih w1 h)
    | disabled => rw [hs] at h; simp at h
    | nilDeref => rw [hs] at h; simp at h

theorem world_reachable (es : List Event) : Reachable (run World.init es).world := by
  cases h : run World.init es with
  | ok w => exact run_reachable es World.init w h
  | disabled => exact ReachableFrom.refl
  | nilDeref => exact ReachableFrom.refl

/-! ## The registry invariant -/

/-- C7: in every world reached from the empty registry by `newConnection`
(which runs `assignId` on a new handle) and by the steps of the handles (each of
which runs `Close` at most once, on its own registered handle), every registry
entry maps an id `k` to a live handle whose id field is `k`, every live handle
`H` has `Registry[H.id] = H`, and no two registered handles and no two live
handles share an id. -/
theorem registry_consistent (w : World) (hr : Reachable w) :
    (∀ k h, w.s.c k = some h → (w.s.conns h).id = k ∧ w.live h) ∧
    (∀ h, w.live h → w.s.c (w.s.conns h).id = some h) ∧
    (∀ k1 k2 h1 h2, w.s.c k1 = some h1 → w.s.c k2 = some h2 →
      (w.s.conns h1).id = (w.s.conns h2).id → h1 = h2) ∧
    (∀ h1 h2, w.live h1 → w.live h2 → (w.s.conns h1).id = (w.s.conns h2).id → h1 = h2) := by
  have hi := Inv_reachable w hr
  refine ⟨hi.entry, hi.registered, ?_, ?_⟩
  · intro k1 k2 h1 h2 e1 e2 hid
    have a1 := (hi.entry k1 h1 e1).1
    have a2 := (hi.entry k2 h2 e2).1
    have hk : k1 = k2 := by rw [← a1, ← a2, hid]
    subst hk
    rw [e1] at e2
    simpa using e2
  · intro h1 h2 l1 l2 hid
    have a1 := hi.registered h1 l1
    have a2 := hi.registered h2 l2
    rw [hid, a2] at a1
    simpa using a1.symm

/-- After three accepts, a bind and a rejection, the registry still maps the
id 1 to handle 0, whose id is 1. -/
theorem registry_consistent_witness :
    Reachable (run World.init cycleTrace).world ∧
    (run World.init cycleTrace).world.s.c 1 = some 0 ∧
    (((run World.init cycleTrace).world.s.conns 0).id = 1 ∧
      (run World.init cycleTrace).world.live 0) :=
  ⟨world_reachable cycleTrace, by decide,
    (registry_consistent (run World.init cycleTrace).world (world_reachable cycleTrace)).1 1 0
      (by decide)⟩

/-! ## Pairing -/

/-- C4: whenever a step takes a handle `a` into the paired state with the
handle `b` it named, in the world right after that step the binding of `a` is
`b` and the binding of `b` is `a`. -/
theorem paired_symmetric (w w1 : World) (e : Event) (a b : Nat) (hr : Reachable w)
    (hs : step w e = Outcome.ok w1) (hbefore : w.pc a ≠ Phase.paired b)
    (hafter : w1.pc a = Phase.paired b) :
    (w1.s.conns a).binding = some b ∧ (w1.s.conns b).binding = some a := by
  have hi := Inv_reachable w hr
  rcases step_cases w w1 e hs with ha | ⟨c, clear, ph, _, hc, hph, _⟩ | ⟨c, peer, hl⟩ |
    ⟨c, peer, hp⟩
  · obtain ⟨_, hframe, _, _, hcase⟩ := ha
    by_cases hh : a = w.next
    · subst hh
      rcases hcase with ⟨h1, _⟩ | ⟨h1, _⟩ <;> rw [h1] at hafter <;> simp at hafter
    · rw [(hframe a hh).2] at hafter
      exact absurd hafter hbefore
  · obtain ⟨_, hpc, _⟩ := hc
    rw [hpc] at hafter
    by_cases hh : a = c
    · subst hh
      rw [setAt_same] at hafter
      rcases hph with ⟨h1, _⟩ | ⟨h1, _⟩ <;> rw [h1] at hafter <;> simp at hafter
    · rw [setAt_ne _ _ _ _ hh] at hafter
      exact absurd hafter hbefore
  · obtain ⟨_, _, hpc, _⟩ := hl
    rw [hpc] at hafter
    by_cases hh : a = c
    · subst hh
      rw [setAt_same] at hafter
      simp at hafter
    · rw [setAt_ne _ _ _ _ hh] at hafter
      exact absurd hafter hbefore
  · obtain ⟨hwait, _, hback, _, hpc, hsame⟩ := hp
    rw [hpc] at hafter
    by_cases hh : a = c
    · subst hh
      rw [setAt_same] at hafter
      have hpe : peer = b := by simpa using hafter
      subst hpe
      rw [hsame]
      exact ⟨(hi.latched a peer (Or.inl hwait)).1, hback⟩
    · rw [setAt_ne _ _ _ _ hh] at hafter
      exact absurd hafter hbefore

/-- Handles 0 and 1 named each other and handle 0 passed the check; handle 1
now passes it too. -/
theorem paired_symmetric_witness :
    (((run World.init (pairTrace ++ [Event.check 1])).world.s.conns 1).binding = some 0 ∧
      ((run World.init (pairTrace ++ [Event.check 1])).world.s.conns 0).binding = some 1) :=
  paired_symmetric (run World.init pairTrace).world
    (run World.init (pairTrace ++ [Event.check 1])).world (Event.check 1) 1 0
    (world_reachable pairTrace) (by rfl) (by decide) (by decide)


/-! ## Mismatched binds -/

theorem Mismatched_step (w w1 : World) (e : Event) (a b : Nat) (hi : Inv w)
    (hm : Mismatched w a b) (hs : step w e = Outcome.ok w1) : Mismatched w1 a b := by
  obtain ⟨hpa, hbf, hbs, hbb⟩ := hm
  have hafree : w.pc a ≠ Phase.free := by
    rcases hpa with h | h <;> rw [h] <;> simp
  have hastart : w.pc a ≠ Phase.start := by
    rcases hpa with h | h <;> rw [h] <;> simp
  rcases step_cases w w1 e hs with ha | ⟨c, clear, ph, hl, hc, hph, _⟩ | ⟨c, peer, hl⟩ |
    ⟨c, peer, hp⟩
  · obtain ⟨_, hframe, _, _, _⟩ := ha
    have hfree : w.pc w.next = Phase.free := hi.unused _ (le_refl _)
    have hna : a ≠ w.next := by intro he; rw [he] at hafree; exact hafree hfree
    have hnb : b ≠ w.next := by intro he; rw [he] at hbf; exact hbf hfree
    refine ⟨?_, ?_, ?_, ?_⟩
    · rw [(hframe a hna).2]; exact hpa
    · rw [(hframe b hnb).2]; exact hbf
    · rw [(hframe b hnb).2]; exact hbs
    · rw [(hframe b hnb).1]; exact hbb
  · obtain ⟨_, hpc, _, _, hbind, hbindc, _, _⟩ := hc
    refine ⟨?_, ?_, ?_, ?_⟩
    · rw [hpc]
      by_cases hh : a = c
      · subst hh
        rw [setAt_same]
        rcases hph with ⟨h1, _⟩ | ⟨_, _, p, hpp⟩
        · exact Or.inr h1
        · rcases hpa with h | h <;> rw [h] at hpp <;> simp at hpp
      · rw [setAt_ne _ _ _ _ hh]; exact hpa
    · rw [hpc]
      by_cases hh : b = c
      · subst hh
        rw [setAt_same]
        rcases hph with ⟨h1, _⟩ | ⟨h1, _⟩ <;> rw [h1] <;> simp
      · rw [setAt_ne _ _ _ _ hh]; exact hbf
    · rw [hpc]
      by_cases hh : b = c
      · subst hh
        rw [setAt_same]
        rcases hph with ⟨h1, _⟩ | ⟨h1, _⟩ <;> rw [h1] <;> simp
      · rw [setAt_ne _ _ _ _ hh]; exact hbs
    · by_cases hh : b = c
      · subst hh
        rw [hbindc]
        cases clear
        · simpa using hbb
        · simp
      · rw [hbind b hh]; exact hbb
  · obtain ⟨hstart, _, hpc, _, hframe, _, _⟩ := hl
    have hna : a ≠ c := by intro he; rw [he] at hastart; exact hastart hstart
    have hnb : b ≠ c := by intro he; rw [he] at hbs; exact hbs hstart
    refine ⟨?_, ?_, ?_, ?_⟩
    · rw [hpc, setAt_ne _ _ _ _ hna]; exact hpa
    · rw [hpc, setAt_ne _ _ _ _ hnb]; exact hbf
    · rw [hpc, setAt_ne _ _ _ _ hnb]; exact hbs
    · rw [hframe b hnb]; exact hbb
  · obtain ⟨hwait, _, hback, _, hpc, hsame⟩ := hp
    have hna : a ≠ c := by
      intro he
      subst he
      rcases hpa with h | h
      · rw [h] at hwait
        have hpe : b = peer := by simpa using hwait
        subst hpe
        exact hbb hback
      · rw [h] at hwait; simp at hwait
    refine ⟨?_, ?_, ?_, ?_⟩
    · rw [hpc, setAt_ne _ _ _ _ hna]; exact hpa
    · rw [hpc]
      by_cases hh : b = c
      · subst hh; rw [setAt_same]; simp
      · rw [setAt_ne _ _ _ _ hh]; exact hbf
    · rw [hpc]
      by_cases hh : b = c
      · subst hh; rw [setAt_same]; simp
      · rw [setAt_ne _ _ _ _ hh]; exact hbs
    · rw [hsame]; exact hbb

theorem Mismatched_from (w w2 : World) (a b : Nat) (hi : Inv w) (hm : Mismatched w a b)
    (h : ReachableFrom w w2) : Inv w2 ∧ Mismatched w2 a b := by
  induction h with
  | refl => exact ⟨hi, hm⟩
  | step e _ hs ih => exact ⟨Inv_step _ _ e ih.1 hs, Mismatched_step _ _ e a b ih.1 ih.2 hs⟩

/-- C5, as the code has it: when `a` waits on `b`, the barrier of `b` is
signaled and `b` is bound to a handle `q` other than `a`, the check of `a`
rejects `a` alone: `a` is torn down (socket closed, binding nil, id out of the
registry), the record and the phase of `b` are untouched, no other registry
entry changes, and a live `b` stays registered.  From such a world on, `a`
never reaches the paired state. -/
theorem mismatch_rejects_caller (w : World) (a b q : Nat) (hr : Reachable w)
    (hname : w.pc a = Phase.waiting b) (hbar : (w.s.conns b).barrier = true)
    (hother : (w.s.conns b).binding = some q) (hne : q ≠ a) :
    (∃ w1, step w (Event.check a) = Outcome.ok w1 ∧
      w1.pc a = Phase.rejected ∧ (w1.s.conns a).c = true ∧ (w1.s.conns a).binding = none ∧
      w1.s.c (w.s.conns a).id = none ∧
      w1.s.conns b = w.s.conns b ∧ w1.pc b = w.pc b ∧
      (∀ k, k ≠ (w.s.conns a).id → w1.s.c k = w.s.c k) ∧
      (w.live b → w1.s.c (w.s.conns b).id = some b)) ∧
    (∀ w2, ReachableFrom w w2 → ∀ p, w2.pc a ≠ Phase.paired p) := by
  have hi := Inv_reachable w hr
  have hab : a ≠ b := by
    intro he
    subst he
    have h1 := (hi.latched a a (Or.inl hname)).1
    rw [h1] at hother
    exact hne (by simpa using hother.symm)
  have hba : b ≠ a := fun h => hab h.symm
  have hmis : (w.s.conns b).binding ≠ some a := by
    rw [hother]; intro h; exact hne (by simpa using h)
  constructor
  · have hstep : step w (Event.check a) =
        Outcome.ok { w with s := Close (clearBinding w.s a) a,
                            pc := setAt w.pc a Phase.rejected } := by
      simp only [step, hname, hbar, if_true, barrierCase]
      rw [if_pos hmis, hother]
    have heff := clearBinding_Close_effect w a Phase.rejected
    obtain ⟨_, hpc, hid, hbarr, hbind, hbindc, hreg, hsock⟩ := heff
    refine ⟨_, hstep, ?_, ?_, ?_, ?_, ?_, ?_, ?_, ?_⟩
    · exact setAt_same _ _ _
    · rw [hsock]; simp
    · rw [hbindc]; simp
    · rw [hreg]; simp
    · apply conn_eq
      · exact hid b
      · rw [hsock]; simp [hba]
      · exact hbind b hba
      · exact hbarr b
    · exact setAt_ne _ _ _ _ hba
    · intro k hk
      rw [hreg, if_neg hk]
    · intro hlb
      have h1 := hi.registered b hlb
      have h2 := hi.registered a (Or.inr (Or.inl ⟨b, hname⟩))
      have hidne : (w.s.conns b).id ≠ (w.s.conns a).id := by
        intro he
        rw [he, h2] at h1
        exact hab (by simpa using h1)
      rw [hreg, if_neg hidne]
      exact h1
  · intro w2 h2 p hp
    have hm : Mismatched w a b := by
      refine ⟨Or.inl hname, ?_, ?_, hmis⟩
      · intro hf
        have := (hi.early b (Or.inl hf)).2
        rw [hbar] at this; simp at this
      · intro hf
        have := (hi.early b (Or.inr hf)).2
        rw [hbar] at this; simp at this
    have hm2 := (Mismatched_from w w2 a b hi hm h2).2
    rcases hm2.1 with h | h <;> rw [h] at hp <;> simp at hp

/-- Handle 0 named handle 1, which is paired with handle 2: the check of
handle 0 rejects it. -/
theorem mismatch_rejects_caller_witness :
    ∃ w1, step (run World.init crossTrace).world (Event.check 0) = Outcome.ok w1 ∧
      w1.pc 0 = Phase.rejected :=
  match (mismatch_rejects_caller (run World.init crossTrace).world 0 1 2
      (world_reachable crossTrace) (by decide) (by decide) (by decide) (by decide)).1 with
  | ⟨w1, h1, h2, _⟩ => ⟨w1, h1, h2⟩

/-- C5 as stated fails: handle 0 names handle 1 and handle 1 names handle 2,
not handle 0; handle 0 is rejected, but handle 1 is not: it is paired with
handle 2, its socket is open and it is still registered under its id 2. -/
theorem mismatched_peer_stays_paired :
    (run World.init crossTrace).world.pc 0 = Phase.waiting 1 ∧
    ((run World.init crossTrace).world.s.conns 1).binding = some 2 ∧
    (run World.init (crossTrace ++ [Event.check 0])).world.pc 0 = Phase.rejected ∧
    (run World.init (crossTrace ++ [Event.check 0])).world.pc 1 = Phase.paired 2 ∧
    (run World.init (crossTrace ++ [Event.check 0])).world.pc 2 = Phase.paired 1 ∧
    ((run World.init (crossTrace ++ [Event.check 0])).world.s.conns 1).c = false ∧
    (run World.init (crossTrace ++ [Event.check 0])).world.s.c 2 = some 1 := by
  decide

/-! ## Barrier and binding -/

/-- C6, as the code has it: in every reachable world, a handle whose barrier
is signaled has its binding set exactly when it has not been rejected; the
mismatch and timeout branches clear the binding and leave the barrier closed. -/
theorem barrier_binding_unless_rejected (w : World) (h : Nat) (hr : Reachable w)
    (hb : (w.s.conns h).barrier = true) :
    ((w.s.conns h).binding ≠ none ↔ w.pc h ≠ Phase.rejected) := by
  have hi := Inv_reachable w hr
  cases hpc : w.pc h with
  | free =>
    have := (hi.early h (Or.inl hpc)).2
    rw [hb] at this; simp at this
  | start =>
    have := (hi.early h (Or.inr hpc)).2
    rw [hb] at this; simp at this
  | waiting p =>
    rw [(hi.latched h p (Or.inl hpc)).1]; simp
  | paired p =>
    rw [(hi.latched h p (Or.inr hpc)).1]; simp
  | rejected =>
    rw [hi.cleared h hpc]; simp
  | closed =>
    have := hi.finished h hpc
    simp [this]

/-- Handle 0 of the cycle has latched: its barrier is signaled, it is not
rejected, its binding is set. -/
theorem barrier_binding_unless_rejected_witness :
    ((run World.init cycleTrace).world.s.conns 0).binding ≠ none :=
  (barrier_binding_unless_rejected (run World.init cycleTrace).world 0
    (world_reachable cycleTrace) (by decide)).2 (by decide)

/-- C6 as stated fails: after the accepts, three latches and the mismatch
rejection of handle 1, the barrier of handle 1 is signaled and its binding is
nil. -/
theorem barrier_signaled_binding_nil :
    ¬ (∀ w : World, Reachable w → ∀ h : Nat,
        (w.s.conns h).barrier = true → (w.s.conns h).binding ≠ none) := by
  intro hall
  exact hall (run World.init cycleTrace).world (world_reachable cycleTrace) 1 (by decide)
    (by decide)

/-! ## The mismatched branch reads `peer.binding.id` -/

/-- C10 fails on the code: in the world reached by `cycleTrace`, handle 0 waits
on handle 1, the barrier of handle 1 is signaled and its binding is nil (so not
handle 0): handle 0 takes the mismatched branch and `peer.binding.id`
dereferences nil. -/
theorem mismatched_branch_nil_deref :
    Reachable (run World.init cycleTrace).world ∧
    (run World.init cycleTrace).world.pc 0 = Phase.waiting 1 ∧
    ((run World.init cycleTrace).world.s.conns 1).barrier = true ∧
    ((run World.init cycleTrace).world.s.conns 1).binding = none ∧
    (run World.init (cycleTrace ++ [Event.check 0])).isNilDeref = true :=
  ⟨world_reachable cycleTrace, by decide, by decide, by decide, by decide⟩

/-! ## The copy loop -/

/-- With every `Write` succeeding in full, the loop writes the bytes of the
`Read` calls that returned no error, in order. -/
theorem copyLoop_written (rs : List ReadResult) (k : Nat) :
    (copyLoop fullWrite k rs).written =
      reported ((copyLoop fullWrite k rs).reads.filter (fun r => r.err = none)) := by
  induction rs generalizing k with
  | nil => simp [copyLoop, reported]
  | cons r rs ih =>
    unfold copyLoop
    cases he : r.err with
    | some e => simp [reported, he]
    | none =>
      have := ih (k + 1)
      simp only [fullWrite, List.take_length] at this ⊢
      simp [reported, he] at this ⊢
      exact this

theorem reported_filter (rs : List ReadResult)
    (h : ∀ r ∈ rs, r.err ≠ none → r.data = []) :
    reported (rs.filter (fun r => r.err = none)) = reported rs := by
  induction rs with
  | nil => rfl
  | cons r rs ih =>
    have ih1 := ih (fun x hx => h x (by simp [hx]))
    unfold reported at ih1 ⊢
    by_cases he : r.err = none
    · simp [he, ih1]
    · have hd := h r (by simp) he
      simp [he, hd, ih1]

/-- C9, as the code has it: when every `Write` succeeds in full and every
`Read` the loop made that returned an error filled no byte (as the read of a
TCP connection does), the loop writes to the peer exactly the concatenation, in
order, of the prefixes filled by all the `Read` calls it made. -/
theorem copyLoop_forwards_all (rs : List ReadResult) (k : Nat)
    (h : ∀ r ∈ (copyLoop fullWrite k rs).reads, r.err ≠ none → r.data = []) :
    (copyLoop fullWrite k rs).written = reported (copyLoop fullWrite k rs).reads := by
  rw [copyLoop_written rs k]
  exact reported_filter _ h

/-- Two reads with data, then end of stream with no byte: all 3 bytes are
written, in order. -/
theorem copyLoop_forwards_all_witness :
    (copyLoop fullWrite 0
      [{ data := [104, 105], err := none }, { data := [33], err := none },
       { data := [], err := some "EOF" }]).written = [104, 105, 33] :=
  copyLoop_forwards_all
    [{ data := [104, 105], err := none }, { data := [33], err := none },
     { data := [], err := some "EOF" }] 0 (by decide)

/-- C9 as stated fails: a `Read` that returns 1 byte together with an error
makes the loop stop without writing that byte, so what the loop wrote (2 bytes)
is not the concatenation of what its `Read` calls reported (3 bytes). -/
theorem copyLoop_drops_bytes_read_with_error :
    (copyLoop fullWrite 0
      [{ data := [104, 105], err := none }, { data := [33], err := some "EOF" }]).written =
        [104, 105] ∧
    reported (copyLoop fullWrite 0
      [{ data := [104, 105], err := none }, { data := [33], err := some "EOF" }]).reads =
        [104, 105, 33] ∧
    (copyLoop fullWrite 0
      [{ data := [104, 105], err := none }, { data := [33], err := some "EOF" }]).written ≠
    reported (copyLoop fullWrite 0
      [{ data := [104, 105], err := none }, { data := [33], err := some "EOF" }]).reads := by
  decide

end Valkyrie
